import Mathlib

/-!
Verification of the media-acquisition pipeline of the Unified-API-Server
repository (`src/services/yt_dlp/`): the retry executor, the size/rate
string parser, output-template sanitization, result classification,
the file-serving gateway and the in-memory status table.

Each definition is a shallow embedding of the corresponding Python
function; the doc comment of a definition names the source location it
embeds.  Filesystem state is modelled as explicit lists of absolute
paths (lists of path components); the external extraction engine
(yt-dlp) is modelled at its interface as a function from the attempt
number to an outcome, as §6 of the design document describes it.
-/

set_option autoImplicit false

namespace UnifiedAPI

/-! ## Extraction executor: `downloader.py`, `_download_with_retry` (lines 20–28)

The tenacity decorator retries exactly when the raised exception is a
`yt_dlp.utils.DownloadError` (`retry_if_exception_type`), stops after
`config.RETRY_ATTEMPTS` invocations (`stop_after_attempt`), and with
`reraise=True` re-raises the last exception instead of wrapping it. -/

/-- Outcome classes an engine invocation can raise, as the executor
distinguishes them: `downloadError` is `yt_dlp.utils.DownloadError`
(the transient, retry-eligible class per `retry_if_exception_type`);
`otherError` is any other exception (permanent, never retried). -/
inductive EngineError where
  | downloadError (msg : String)
  | otherError (msg : String)
deriving DecidableEq, Repr

/-- The executor's retry predicate: `retry_if_exception_type(yt_dlp.utils.DownloadError)`. -/
def EngineError.isTransient : EngineError → Bool
  | .downloadError _ => true
  | .otherError _ => false

/-- One engine invocation either returns extracted info or raises. -/
abbrev EngineResult (α : Type) := Except EngineError α

/-- `config.py` line 9: `RETRY_ATTEMPTS = int(os.getenv("YTDLP_RETRY_ATTEMPTS", "3"))`
— default maximum attempt count. -/
def RETRY_ATTEMPTS : Nat := 3

/-- Core of the tenacity loop of `_download_with_retry`: `i` is the
0-based index of the current attempt, `rem` the number of further
attempts `stop_after_attempt` still allows after this one.  Returns the
surfaced result together with the total number of engine invocations
performed.  `reraise=True`: on exhaustion the last exception itself is
re-raised. -/
def retryAux {α : Type} (engine : Nat → EngineResult α) : Nat → Nat → EngineResult α × Nat
  | i, rem =>
    match rem, engine i with
    | _, .ok v => (.ok v, i + 1)
    | 0, .error e => (.error e, i + 1)
    | r + 1, .error e =>
      if e.isTransient then retryAux engine (i + 1) r else (.error e, i + 1)

/-- `_download_with_retry(ydl, url)`: run the engine with the tenacity
retry policy (`stop_after_attempt maxAttempts`, retry only on
`DownloadError`, reraise the last error). -/
def downloadWithRetry {α : Type} (engine : Nat → EngineResult α) (maxAttempts : Nat) :
    EngineResult α × Nat :=
  retryAux engine 0 (maxAttempts - 1)

theorem retryAux_ok {α : Type} (engine : Nat → EngineResult α) (i rem : Nat) (v : α)
    (h : engine i = .ok v) : retryAux engine i rem = (.ok v, i + 1) := by
  cases rem <;> (unfold retryAux; simp only [h])

theorem retryAux_zero_error {α : Type} (engine : Nat → EngineResult α) (i : Nat)
    (e : EngineError) (h : engine i = .error e) :
    retryAux engine i 0 = (.error e, i + 1) := by
  unfold retryAux
  simp only [h]

theorem retryAux_succ_transient {α : Type} (engine : Nat → EngineResult α) (i r : Nat)
    (msg : String) (h : engine i = .error (.downloadError msg)) :
    retryAux engine i (r + 1) = retryAux engine (i + 1) r := by
  conv_lhs => unfold retryAux
  simp only [h, EngineError.isTransient, if_true]

theorem retryAux_permanent {α : Type} (engine : Nat → EngineResult α) (i rem : Nat)
    (e : EngineError) (h : engine i = .error e) (hperm : e.isTransient = false) :
    retryAux engine i rem = (.error e, i + 1) := by
  cases rem with
  | zero => unfold retryAux; simp only [h]
  | succ r => unfold retryAux; simp only [h, hperm]; simp

/-- If the engine fails transiently at attempts `i, i+1, …, i+k-1`, succeeds
at attempt `i+k`, and `k ≤ rem`, the loop returns the success after
`i+k+1` total invocations. -/
theorem retryAux_transient_then_ok {α : Type} (engine : Nat → EngineResult α) (v : α) :
    ∀ (k i rem : Nat), k ≤ rem →
      (∀ j, j < k → ∃ msg, engine (i + j) = .error (.downloadError msg)) →
      engine (i + k) = .ok v →
      retryAux engine i rem = (.ok v, i + k + 1) := by
  intro k
  induction k with
  | zero =>
    intro i rem _ _ hok
    simp only [Nat.add_zero] at hok
    rw [retryAux_ok engine i rem v hok]
  | succ k ih =>
    intro i rem hle hfail hok
    obtain ⟨r, rfl⟩ : ∃ r, rem = r + 1 := ⟨rem - 1, by omega⟩
    obtain ⟨msg, hmsg⟩ := hfail 0 (Nat.succ_pos k)
    simp only [Nat.add_zero] at hmsg
    rw [retryAux_succ_transient engine i r msg hmsg]
    have := ih (i + 1) r (by omega)
      (fun j hj => by
        obtain ⟨m, hm⟩ := hfail (j + 1) (by omega)
        exact ⟨m, by rw [show i + 1 + j = i + (j + 1) by omega]; exact hm⟩)
      (by rw [show i + 1 + k = i + (k + 1) by omega]; exact hok)
    rw [this, Prod.mk.injEq]
    exact ⟨rfl, by omega⟩

/-- If the engine fails transiently at every attempt, the loop performs
`rem + 1` invocations starting at `i` and surfaces the last error. -/
theorem retryAux_all_transient {α : Type} (engine : Nat → EngineResult α)
    (hall : ∀ j, ∃ msg, engine j = .error (.downloadError msg)) :
    ∀ (rem i : Nat), ∃ msg,
      engine (i + rem) = .error (.downloadError msg) ∧
      retryAux engine i rem = (.error (.downloadError msg), i + rem + 1) := by
  intro rem
  induction rem with
  | zero =>
    intro i
    obtain ⟨msg, h⟩ := hall i
    exact ⟨msg, by simpa using h, by
      rw [retryAux_zero_error engine i _ h]⟩
  | succ r ih =>
    intro i
    obtain ⟨msg0, h0⟩ := hall i
    obtain ⟨msg, hmsg, hrec⟩ := ih (i + 1)
    refine ⟨msg, by rw [show i + (r + 1) = i + 1 + r by omega]; exact hmsg, ?_⟩
    rw [retryAux_succ_transient engine i r msg0 h0, hrec, Prod.mk.injEq]
    exact ⟨rfl, by omega⟩

/-- If the engine fails transiently at attempts `i, …, i+k-1` and raises a
non-transient error at attempt `i+k` with `k ≤ rem`, the loop stops there:
`i+k+1` total invocations, surfacing that error. -/
theorem retryAux_permanent_stops {α : Type} (engine : Nat → EngineResult α) (e : EngineError)
    (hperm : e.isTransient = false) :
    ∀ (k i rem : Nat), k ≤ rem →
      (∀ j, j < k → ∃ msg, engine (i + j) = .error (.downloadError msg)) →
      engine (i + k) = .error e →
      retryAux engine i rem = (.error e, i + k + 1) := by
  intro k
  induction k with
  | zero =>
    intro i rem _ _ herr
    simp only [Nat.add_zero] at herr
    rw [retryAux_permanent engine i rem e herr hperm]
  | succ k ih =>
    intro i rem hle hfail herr
    obtain ⟨r, rfl⟩ : ∃ r, rem = r + 1 := ⟨rem - 1, by omega⟩
    obtain ⟨msg, hmsg⟩ := hfail 0 (Nat.succ_pos k)
    simp only [Nat.add_zero] at hmsg
    rw [retryAux_succ_transient engine i r msg hmsg]
    have := ih (i + 1) r (by omega)
      (fun j hj => by
        obtain ⟨m, hm⟩ := hfail (j + 1) (by omega)
        exact ⟨m, by rw [show i + 1 + j = i + (j + 1) by omega]; exact hm⟩)
      (by rw [show i + 1 + k = i + (k + 1) by omega]; exact herr)
    rw [this, Prod.mk.injEq]
    exact ⟨rfl, by omega⟩

/-- **C3** — If the engine raises a transient (`DownloadError`) failure on
exactly `N` consecutive invocations with `N < maxAttempts` and then
succeeds, `_download_with_retry` returns success after exactly `N + 1`
engine invocations; and if every invocation fails transiently, it
performs exactly `maxAttempts` invocations (default `RETRY_ATTEMPTS =
3`) and surfaces the last transient error. -/
theorem c3_retry_invocation_counts :
    (∀ (α : Type) (engine : Nat → EngineResult α) (N maxAttempts : Nat) (v : α),
      N < maxAttempts →
      (∀ i, i < N → ∃ msg, engine i = .error (.downloadError msg)) →
      engine N = .ok v →
      downloadWithRetry engine maxAttempts = (.ok v, N + 1)) ∧
    (∀ (α : Type) (engine : Nat → EngineResult α) (maxAttempts : Nat),
      1 ≤ maxAttempts →
      (∀ j, ∃ msg, engine j = .error (.downloadError msg)) →
      ∃ msg, engine (maxAttempts - 1) = .error (.downloadError msg) ∧
        downloadWithRetry engine maxAttempts =
          (.error (.downloadError msg), maxAttempts)) ∧
    RETRY_ATTEMPTS = 3 := by
  refine ⟨?_, ?_, rfl⟩
  · intro α engine N maxAttempts v hlt hfail hok
    unfold downloadWithRetry
    have := retryAux_transient_then_ok engine v N 0 (maxAttempts - 1) (by omega)
      (fun j hj => by simpa using hfail j hj) (by simpa using hok)
    simpa using this
  · intro α engine maxAttempts hpos hall
    obtain ⟨msg, hmsg, hrun⟩ := retryAux_all_transient engine hall (maxAttempts - 1) 0
    refine ⟨msg, by simpa using hmsg, ?_⟩
    unfold downloadWithRetry
    rw [hrun, Prod.mk.injEq]
    exact ⟨rfl, by omega⟩

/-- Witness for C3 at a concrete simulated engine: fails transiently on
attempt 0, succeeds on attempt 1, with the default 3 attempts. -/
theorem c3_retry_invocation_counts_witness :
    downloadWithRetry
      (fun i => if i = 0 then .error (.downloadError "timed out") else .ok (37 : Nat))
      RETRY_ATTEMPTS = (.ok 37, 2) := by
  have h := c3_retry_invocation_counts.1 Nat
    (fun i => if i = 0 then .error (.downloadError "timed out") else .ok (37 : Nat))
    1 RETRY_ATTEMPTS 37 (by decide)
    (fun i hi => ⟨"timed out", by interval_cases i; rfl⟩) (by rfl)
  exact h

/-- **C4** — A non-transient (permanent) engine failure is never retried:
if attempt `k` raises a non-`DownloadError` exception (after `k` earlier
transient failures), the executor surfaces it immediately after that
single further invocation — `k + 1` invocations in total, so a failure
on the first invocation surfaces after exactly one invocation. -/
theorem c4_permanent_error_not_retried
    (α : Type) (engine : Nat → EngineResult α) (k maxAttempts : Nat) (msg : String)
    (hk : k < maxAttempts)
    (hfail : ∀ i, i < k → ∃ m, engine i = .error (.downloadError m))
    (herr : engine k = .error (.otherError msg)) :
    downloadWithRetry engine maxAttempts = (.error (.otherError msg), k + 1) := by
  unfold downloadWithRetry
  have := retryAux_permanent_stops engine (.otherError msg) rfl k 0 (maxAttempts - 1)
    (by omega) (fun j hj => by simpa using hfail j hj) (by simpa using herr)
  simpa using this

/-- Witness for C4: an engine whose very first invocation raises an
unsupported-URL (non-`DownloadError`) failure is not retried — one
invocation total, with the default 3 attempts. -/
theorem c4_permanent_error_not_retried_witness :
    downloadWithRetry
      (fun _ => (.error (.otherError "Unsupported URL") : EngineResult Nat))
      RETRY_ATTEMPTS = (.error (.otherError "Unsupported URL"), 1) :=
  c4_permanent_error_not_retried Nat _ 0 RETRY_ATTEMPTS "Unsupported URL"
    (by decide) (fun i hi => absurd hi (Nat.not_lt_zero i)) rfl

/-! ## Status table: `status.py`, `DownloadStatus` (lines 8–64)

`self.downloads` is a `Dict[str, dict]`; entries are heterogeneous
Python dicts.  We model a dict as an insertion-ordered association
list (`dictSet` replaces in place or appends, like Python dict
assignment) and the value space as a small sum of the value types the
tracker stores. -/

/-- Values stored in a status entry (strings, ints, bools, `None`). -/
inductive PyVal where
  | str (s : String)
  | int (n : Int)
  | bool (b : Bool)
  | pynone
deriving DecidableEq, Repr

/-- A Python dict over string keys, insertion-ordered. -/
abbrev PyDict := List (String × PyVal)

/-- `d[k] = v` on a Python dict: replace the value in place if the key
exists, append otherwise. -/
def dictSet (d : PyDict) (k : String) (v : PyVal) : PyDict :=
  if d.any (fun p => p.1 = k) then
    d.map (fun p => if p.1 = k then (k, v) else p)
  else
    d ++ [(k, v)]

/-- `d.get(k)` / `d[k]` lookup. -/
def dictGet (d : PyDict) (k : String) : Option PyVal :=
  (d.find? (fun p => p.1 = k)).map Prod.snd

/-- Python `dict.update(kwargs)`: set each key of `kwargs` in order. -/
def dictUpdate (d : PyDict) (kwargs : PyDict) : PyDict :=
  kwargs.foldl (fun acc p => dictSet acc p.1 p.2) d

/-- The tracker state: `DownloadStatus.downloads`, an insertion-ordered
map from download id to its status dict. -/
structure DownloadStatus where
  downloads : List (String × PyDict)
deriving DecidableEq, Repr

/-- `DownloadStatus.get` (status.py lines 44–47): `self.downloads.get(download_id)`. -/
def DownloadStatus.get (t : DownloadStatus) (downloadId : String) : Option PyDict :=
  (t.downloads.find? (fun p => p.1 = downloadId)).map Prod.snd

/-- `DownloadStatus.update` (status.py lines 36–42): if the id is present,
merge `kwargs` into its entry and, when `kwargs["status"] == "completed"`,
also stamp `completed_at` (with the current time `nowIso`); ids that are
not present are silently ignored. -/
def DownloadStatus.update (t : DownloadStatus) (downloadId : String)
    (kwargs : PyDict) (nowIso : String) : DownloadStatus :=
  if t.downloads.any (fun p => p.1 = downloadId) then
    { downloads :=
        t.downloads.map (fun p =>
          if p.1 = downloadId then
            let merged := dictUpdate p.2 kwargs
            if dictGet kwargs "status" = some (.str "completed") then
              (p.1, dictSet merged "completed_at" (.str nowIso))
            else
              (p.1, merged)
          else p) }
  else t

theorem find?_none_of_not_any {α : Type} (l : List (α × PyDict)) (p : α × PyDict → Bool)
    (h : l.any p = false) : l.find? p = none := by
  induction l with
  | nil => rfl
  | cons a l ih =>
    simp only [List.any_cons, Bool.or_eq_false_iff] at h
    simp only [List.find?, h.1]
    exact ih h.2

/-- **C10** — For every `download_id` not present in the status table,
`DownloadStatus.update` leaves the table completely unchanged and raises
no error (it is a total function: unknown ids are silently dropped), and
`DownloadStatus.get` returns `None` for that id. -/
theorem c10_update_unknown_id_is_noop
    (t : DownloadStatus) (downloadId : String) (kwargs : PyDict) (nowIso : String)
    (h : ∀ e ∈ t.downloads, e.1 ≠ downloadId) :
    t.update downloadId kwargs nowIso = t ∧ t.get downloadId = none := by
  have hany : t.downloads.any (fun p => p.1 = downloadId) = false := by
    simp only [List.any_eq_false]
    intro p hp
    simpa using h p hp
  constructor
  · unfold DownloadStatus.update
    rw [hany]
    simp
  · unfold DownloadStatus.get
    rw [find?_none_of_not_any _ _ hany]
    rfl

/-- Witness for C10: updating an id absent from a one-entry table is a
no-op and `get` yields `none`. -/
theorem c10_update_unknown_id_is_noop_witness :
    (DownloadStatus.mk [("abc", [("status", PyVal.str "pending")])]).update
        "missing" [("status", PyVal.str "completed")] "2026-10-12T00:00:00" =
      DownloadStatus.mk [("abc", [("status", PyVal.str "pending")])] ∧
    (DownloadStatus.mk [("abc", [("status", PyVal.str "pending")])]).get "missing" = none :=
  c10_update_unknown_id_is_noop _ "missing" _ "2026-10-12T00:00:00"
    (by intro e he; simp at he; rw [he]; decide)

/-! ## Size/rate string parsing: `config_builder.py`, `_parse_size` (lines 222–245)
and the download-limit options of `build_ydl_opts` (lines 194–202).

`_parse_size` does `size_str.upper().strip()`, tries the suffixes
`K`, `M`, `G` in that order (`float` on the prefix, times the
multiplier, truncated by `int(...)`), falls back to `int(size_str)`,
and returns `0` on any `ValueError`.  Python's number handling is
modelled over `ℤ` only on the fragment where the integer model is
exact, and the theorems below quantify only over that fragment:

* digit strings (any length on the `int` fallback, at most 15 digits
  before a suffix, so that `float(digits)` is an exactly represented
  IEEE-754 double `< 2^53` and the product with a power-of-two
  multiplier neither rounds nor overflows), and
* all-ASCII-letter strings not ending in a suffix letter, where
  `int()` raises `ValueError` and `_parse_size` returns `0`.

Outside that fragment the source diverges from any exact-integer
model and from this one: `float()` accepts exponents, `_` separators
and `inf`/`nan` and rounds to double (`float("1e5")`,
`int("1_0")`); a suffixed fraction is truncated after double
rounding; and a value overflowing the double (`"infK"`, `"1e309K"`)
makes `int(float(...) * mult)` raise `OverflowError`, which the
`except ValueError` guard does *not* catch, so `_parse_size`
propagates the exception and the request fails. -/

def digitVal (c : Char) : Nat := c.toNat - '0'.toNat

/-- Value of a digit string, most-significant first. -/
def digitsToNat (cs : List Char) : Nat := cs.foldl (fun a c => a * 10 + digitVal c) 0

/-- ASCII decimal digit (code points 48–57), as `str.isdigit` /
`int`-literal digits behave on the ASCII range. -/
def isDigitChar (c : Char) : Bool := 48 ≤ c.toNat && c.toNat ≤ 57

/-- `str.upper()` on the ASCII range: lowercase letters (code points
97–122) are shifted down by 32, everything else is unchanged. -/
def asciiUpper (c : Char) : Char :=
  if 97 ≤ c.toNat ∧ c.toNat ≤ 122 then Char.ofNat (c.toNat - 32) else c

/-- Python `str.strip()` whitespace: space, `\t`, `\n`, `\r`, `\v`, `\f`. -/
def isSpaceChar (c : Char) : Bool :=
  c.toNat = 32 || c.toNat = 9 || c.toNat = 10 || c.toNat = 13 || c.toNat = 11 || c.toNat = 12

/-- `str.strip()`: drop whitespace from both ends. -/
def pyStrip (cs : List Char) : List Char :=
  ((cs.dropWhile isSpaceChar).reverse.dropWhile isSpaceChar).reverse

/-- `int(s)` on an already-stripped string: optional sign then a
non-empty digit run, `ValueError` (`none`) otherwise.  Python's
`int()` additionally accepts `_` digit separators and non-ASCII
digits; the theorems below apply this model only to ASCII digit runs
and to all-letter strings, where the two agree. -/
def pyInt (cs : List Char) : Option Int :=
  if cs.head? = some '-' then
    if cs.tail ≠ [] ∧ cs.tail.all isDigitChar then
      some (-(digitsToNat cs.tail : Int))
    else none
  else if cs.head? = some '+' then
    if cs.tail ≠ [] ∧ cs.tail.all isDigitChar then
      some (digitsToNat cs.tail : Int)
    else none
  else
    if cs ≠ [] ∧ cs.all isDigitChar then some (digitsToNat cs : Int) else none

/-- Combine the integer-part and `'.'`-onward segments of a float
literal: `rest` is empty (no dot) or `'.'` followed by the fraction
digits; at least one digit is required, all characters must be digits. -/
def pyFloatSplit (sign : Int) (ip rest : List Char) : Option (Int × Nat) :=
  if rest = [] then
    if ip ≠ [] ∧ ip.all isDigitChar then some (sign * (digitsToNat ip : Int), 0) else none
  else
    if (ip ≠ [] ∨ rest.tail ≠ []) ∧ ip.all isDigitChar ∧ rest.tail.all isDigitChar then
      some (sign * ((digitsToNat ip : Int) * (10 : Int) ^ rest.tail.length +
        (digitsToNat rest.tail : Int)), rest.tail.length)
    else none

/-- Split a signless float-literal body at the first `'.'`. -/
def pyFloatParts (sign : Int) (body : List Char) : Option (Int × Nat) :=
  pyFloatSplit sign (body.takeWhile (fun c => c != '.'))
    (body.dropWhile (fun c => c != '.'))

/-- `float(s)` on an already-stripped decimal literal, represented
exactly as a scaled integer: `some (m, k)` stands for the value
`m / 10^k`.  Optional sign, optional integer digits, optional `'.'`
and fraction digits, at least one digit in total.  Python's `float()`
also accepts exponents, `_` separators and `inf`/`nan`, and rounds to
an IEEE-754 double; the theorems below evaluate this model only on
plain digit strings of at most 15 digits, where the double is the
exact value. -/
def pyFloatRep (cs : List Char) : Option (Int × Nat) :=
  pyFloatParts (if cs.head? = some '-' then -1 else 1)
    (if cs.head? = some '-' ∨ cs.head? = some '+' then cs.tail else cs)

/-- Python `int(num * multiplier)` for the exact value `num = m / 10^k`:
multiply, then truncate toward zero (`Int.tdiv` truncates toward zero,
as Python `int()` does on a float).  Python computes the product in
double precision, which rounds near dyadic boundaries and raises
`OverflowError` past the double range; the theorems below reach this
definition only with `k = 0` and `m < 10^15`, where the double product
is exact. -/
def truncScaled (m : Int) (k : Nat) (mult : Nat) : Int :=
  Int.tdiv (m * (mult : Int)) ((10 : Int) ^ k)

/-- The suffix scan of `_parse_size`, applied to the already
uppercased and stripped character list: try the suffixes `K`, `M`, `G`
in dict order, fall back to `int`. -/
def parseSizeScan (cs : List Char) : Int :=
  if cs.getLast? = some 'K' then
    match pyFloatRep cs.dropLast with
    | some (m, k) => truncScaled m k 1024
    | none => 0
  else if cs.getLast? = some 'M' then
    match pyFloatRep cs.dropLast with
    | some (m, k) => truncScaled m k (1024 * 1024)
    | none => 0
  else if cs.getLast? = some 'G' then
    match pyFloatRep cs.dropLast with
    | some (m, k) => truncScaled m k (1024 * 1024 * 1024)
    | none => 0
  else
    match pyInt cs with
    | some n => n
    | none => 0

/-- `_parse_size` on the character list of the argument:
`size_str.upper().strip()` then the suffix scan. -/
def parseSizeChars (cs0 : List Char) : Int :=
  parseSizeScan (pyStrip (cs0.map asciiUpper))

/-- `_parse_size(size_str)` (config_builder.py lines 222–245), on the
fragment described at the head of this section.  This model is total,
the source is not: on inputs whose `float()` value overflows the
double (`"infK"`) the source raises an uncaught `OverflowError`; such
inputs are outside every theorem's domain below. -/
def parseSize (s : String) : Int := parseSizeChars s.data

/-- The subset of `models.DownloadRequest` (models.py lines 33–96) read
by the option-building fragments verified here; the remaining fields
(quality, format, subtitle and post-processing flags, …) do not flow
into the output-template or download-limit option keys. -/
structure DownloadRequest where
  output_template : Option String := none
  rate_limit : Option String := none
  max_filesize : Option String := none
  min_filesize : Option String := none

/-- One `if request.X: opts[key] = _parse_size(request.X)` block of
`build_ydl_opts`: the key is set exactly when the field holds a truthy
(non-empty) string. -/
def limitSeg (o : Option String) (key : String) : List (String × Int) :=
  match o with
  | some s => if s ≠ "" then [(key, parseSize s)] else []
  | none => []

/-- The download-limit section of `build_ydl_opts` (config_builder.py
lines 194–202): each of `ratelimit` / `max_filesize` / `min_filesize`
is set to `_parse_size(value)` when the request carries a truthy
(non-empty) string for it. -/
def buildLimitOpts (req : DownloadRequest) : List (String × Int) :=
  limitSeg req.rate_limit "ratelimit" ++ limitSeg req.max_filesize "max_filesize" ++
    limitSeg req.min_filesize "min_filesize"

/-- Is the character one of the (case-insensitive) size suffixes? -/
def isSuffixChar (c : Char) : Bool :=
  c = 'K' || c = 'M' || c = 'G' || c = 'k' || c = 'm' || c = 'g'

/-- Byte multiplier of a size suffix. -/
def suffixMult (c : Char) : Nat :=
  if c = 'K' || c = 'k' then 1024
  else if c = 'M' || c = 'm' then 1024 * 1024
  else 1024 * 1024 * 1024

/-- Decompose the suffixless part of a size string: leading digits,
then an optional `'.'` and fraction digits. -/
def sizeDecomposeBody (body : List Char) (sfx : Option Char) :
    Option (List Char × List Char × Option Char) :=
  if body.takeWhile isDigitChar = [] then none
  else if body.dropWhile isDigitChar = [] then some (body.takeWhile isDigitChar, [], sfx)
  else if (body.dropWhile isDigitChar).head? = some '.' ∧
      (body.dropWhile isDigitChar).tail ≠ [] ∧
      (body.dropWhile isDigitChar).tail.all isDigitChar then
    some (body.takeWhile isDigitChar, (body.dropWhile isDigitChar).tail, sfx)
  else none

/-- Decompose a size string per the spec grammar
`^\d+(\.\d+)?[KMG]?$` (case-insensitive): integer digits, optional
fraction digits, optional suffix.  `none` when the string does not
match the grammar. -/
def sizeDecompose (cs : List Char) : Option (List Char × List Char × Option Char) :=
  if (cs.getLast?.map isSuffixChar).getD false then
    sizeDecomposeBody cs.dropLast cs.getLast?
  else sizeDecomposeBody cs none

/-- The spec's size grammar `^\d+(\.\d+)?[KMG]?$`, case-insensitive. -/
def sizeRegexMatch (cs : List Char) : Bool := (sizeDecompose cs).isSome

/-- The integral fragment of the size grammar: `^\d+[KMG]?$`
(case-insensitive), with at most 15 digits when a suffix is present.
On it `_parse_size` computes exactly: the `int` fallback is arbitrary
precision, and a suffixed value `< 10^15` is an exact double whose
product with a power-of-two multiplier neither rounds nor overflows.
Fractional strings are excluded: without a suffix `int()` raises
`ValueError` (so `_parse_size` returns `0`, refuting the original
claim), and with a suffix the value is truncated after IEEE-754
double rounding, which an exact-integer model does not capture. -/
def sizeExactMatch (cs : List Char) : Bool :=
  match sizeDecompose cs with
  | some (ds, fs, sfx) => fs = [] ∧ (sfx = none ∨ ds.length ≤ 15)
  | none => false

/-- Byte multiplier of an optional suffix (`1` when absent). -/
def suffixMultOpt : Option Char → Nat
  | some c => suffixMult c
  | none => 1

/-- The byte count of an integral size string: the digit value times
the suffix multiplier. -/
def intGrammarBytes (cs : List Char) : Int :=
  match sizeDecompose cs with
  | some (ds, _, sfx) => (digitsToNat ds : Int) * (suffixMultOpt sfx : Int)
  | none => 0

/-- The byte count the spec expects of a size string: the decimal value
(integer plus fraction, exactly) times the suffix multiplier, truncated
to an integer. -/
def specBytes (cs : List Char) : Int :=
  match sizeDecompose cs with
  | some (ds, fs, sfx) =>
    truncScaled ((digitsToNat ds : Int) * (10 : Int) ^ fs.length + (digitsToNat fs : Int))
      fs.length (suffixMultOpt sfx)
  | none => 0

/-- `str(n)` for a natural number: decimal digits of `n`, via a fuel
argument so that the recursion is structural (the fuel bounds the
number of digits; `n` itself is always enough fuel). -/
def natToCharsAux (fuel : Nat) (n : Nat) : List Char :=
  match fuel with
  | 0 => []
  | fuel + 1 =>
    if n < 10 then [Nat.digitChar n]
    else natToCharsAux fuel (n / 10) ++ [Nat.digitChar (n % 10)]

/-- `str(n)` for a natural number: decimal digits. -/
def natToChars (n : Nat) : List Char := natToCharsAux (n + 1) n

/-- `str(n)` for an integer. -/
def intRepr (n : Int) : List Char :=
  if n < 0 then '-' :: natToChars n.natAbs else natToChars n.toNat

/-! ### Character and list facts used by the parser proofs -/

theorem digitVal_digitChar (d : Nat) (hd : d < 10) : digitVal (Nat.digitChar d) = d := by
  interval_cases d <;> decide

theorem isDigitChar_digitChar (d : Nat) (hd : d < 10) :
    isDigitChar (Nat.digitChar d) = true := by
  interval_cases d <;> decide

theorem isDigitChar_toNat {c : Char} (h : isDigitChar c = true) :
    48 ≤ c.toNat ∧ c.toNat ≤ 57 := by
  simpa [isDigitChar, Bool.and_eq_true, decide_eq_true_eq] using h

theorem toNat_eq_of_char_eq {c d : Char} (h : c = d) : c.toNat = d.toNat := by
  rw [h]

theorem not_space_of_digit (c : Char) (h : isDigitChar c = true) : isSpaceChar c = false := by
  have h2 := isDigitChar_toNat h
  simp only [isSpaceChar, Bool.or_eq_false_iff, decide_eq_false_iff_not]
  omega

theorem ne_dot_of_digit (c : Char) (h : isDigitChar c = true) : (c != '.') = true := by
  have h2 := isDigitChar_toNat h
  simp only [bne_iff_ne, ne_eq]
  intro he
  have := toNat_eq_of_char_eq he
  simp only [show ('.').toNat = 46 from rfl] at this
  omega

theorem toNat_charOfNat {n : Nat} (h : n < 55296) : (Char.ofNat n).toNat = n := by
  unfold Char.ofNat
  rw [dif_pos (Or.inl h)]
  rfl

theorem asciiUpper_digit (c : Char) (h : isDigitChar c = true) : asciiUpper c = c := by
  have h2 := isDigitChar_toNat h
  unfold asciiUpper
  rw [if_neg]
  omega

theorem asciiUpper_eq_dash (c : Char) (h : asciiUpper c = '-') : c = '-' := by
  unfold asciiUpper at h
  split_ifs at h with hc
  · exfalso
    have := toNat_eq_of_char_eq h
    rw [toNat_charOfNat (by omega)] at this
    simp only [show ('-').toNat = 45 from rfl] at this
    omega
  · exact h

theorem dropWhile_no_match {α : Type} (p : α → Bool) (l : List α)
    (h : ∀ c ∈ l, p c = false) : l.dropWhile p = l := by
  cases l with
  | nil => rfl
  | cons a t =>
    rw [List.dropWhile_cons, h a (List.mem_cons_self a t)]
    simp

theorem pyStrip_no_space (cs : List Char) (h : ∀ c ∈ cs, isSpaceChar c = false) :
    pyStrip cs = cs := by
  unfold pyStrip
  rw [dropWhile_no_match _ _ h, dropWhile_no_match, List.reverse_reverse]
  intro c hc
  exact h c (List.mem_reverse.mp hc)

theorem mem_pyStrip {c : Char} {cs : List Char} (h : c ∈ pyStrip cs) : c ∈ cs := by
  unfold pyStrip at h
  rw [List.mem_reverse] at h
  have h2 := (List.dropWhile_sublist _).mem h
  rw [List.mem_reverse] at h2
  exact (List.dropWhile_sublist _).mem h2

theorem map_asciiUpper_digits (l : List Char) :
    (∀ c ∈ l, isDigitChar c = true) → l.map asciiUpper = l := by
  induction l with
  | nil => intro _; rfl
  | cons a t ih =>
    intro h
    rw [List.map_cons, asciiUpper_digit a (h a (List.mem_cons_self a t)),
      ih (fun c hc => h c (List.mem_cons_of_mem a hc))]

theorem takeWhile_all {α : Type} (p : α → Bool) (l : List α) :
    (∀ c ∈ l, p c = true) → l.takeWhile p = l ∧ l.dropWhile p = [] := by
  induction l with
  | nil => intro _; exact ⟨rfl, rfl⟩
  | cons a t ih =>
    intro h
    have ha := h a (List.mem_cons_self a t)
    obtain ⟨h1, h2⟩ := ih (fun c hc => h c (List.mem_cons_of_mem a hc))
    simp [List.takeWhile_cons, List.dropWhile_cons, ha, h1, h2]

theorem takeWhile_append_hit {α : Type} (p : α → Bool) (l1 l2 : List α) (x : α)
    (hx : p x = false) :
    (∀ c ∈ l1, p c = true) →
    (l1 ++ x :: l2).takeWhile p = l1 ∧ (l1 ++ x :: l2).dropWhile p = x :: l2 := by
  induction l1 with
  | nil =>
    intro _
    simp only [List.nil_append, List.takeWhile_cons, List.dropWhile_cons, hx]
    exact ⟨rfl, rfl⟩
  | cons a t ih =>
    intro h
    have ha := h a (List.mem_cons_self a t)
    obtain ⟨h1, h2⟩ := ih (fun c hc => h c (List.mem_cons_of_mem a hc))
    simp [List.cons_append, List.takeWhile_cons, List.dropWhile_cons, ha, h1, h2]

theorem head?_mem {α : Type} {l : List α} {a : α} (h : l.head? = some a) : a ∈ l := by
  cases l with
  | nil => simp at h
  | cons b t =>
    simp only [List.head?_cons, Option.some.injEq] at h
    exact h ▸ List.mem_cons_self b t

theorem asciiUpper_of_low (c : Char) (h : c.toNat < 97) : asciiUpper c = c := by
  unfold asciiUpper
  rw [if_neg]
  omega

theorem not_space_of_printable (c : Char) (h : 33 ≤ c.toNat) : isSpaceChar c = false := by
  simp only [isSpaceChar, Bool.or_eq_false_iff, decide_eq_false_iff_not]
  omega

theorem map_asciiUpper_digit_dot (l : List Char) :
    (∀ c ∈ l, isDigitChar c = true ∨ c = '.') → l.map asciiUpper = l := by
  induction l with
  | nil => intro _; rfl
  | cons a t ih =>
    intro h
    have ha : asciiUpper a = a := by
      rcases h a (List.mem_cons_self a t) with hd | rfl
      · exact asciiUpper_digit a hd
      · exact asciiUpper_of_low '.' (by decide)
    rw [List.map_cons, ha, ih (fun c hc => h c (List.mem_cons_of_mem a hc))]

theorem strip_digit_dot (l : List Char) (h : ∀ c ∈ l, isDigitChar c = true ∨ c = '.') :
    pyStrip l = l := by
  refine pyStrip_no_space l (fun c hc => ?_)
  rcases h c hc with hd | rfl
  · exact not_space_of_digit c hd
  · exact not_space_of_printable '.' (by decide)

theorem suffix_cases {c : Char} (h : isSuffixChar c = true) :
    c = 'K' ∨ c = 'M' ∨ c = 'G' ∨ c = 'k' ∨ c = 'm' ∨ c = 'g' := by
  simp only [isSuffixChar, Bool.or_eq_true, decide_eq_true_eq] at h
  tauto

theorem digit_ne_dash {c : Char} (h : isDigitChar c = true) : ¬ (c = '-') := by
  have h2 := isDigitChar_toNat h
  intro he
  have := toNat_eq_of_char_eq he
  simp only [show ('-').toNat = 45 from rfl] at this
  omega

theorem digit_ne_plus {c : Char} (h : isDigitChar c = true) : ¬ (c = '+') := by
  have h2 := isDigitChar_toNat h
  intro he
  have := toNat_eq_of_char_eq he
  simp only [show ('+').toNat = 43 from rfl] at this
  omega

theorem digit_getLast_ne {c x : Char} (h : isDigitChar c = true) (hx : 65 ≤ x.toNat)
    : ¬ (c = x) := by
  have h2 := isDigitChar_toNat h
  intro he
  have := toNat_eq_of_char_eq he
  omega

/-- `pyInt` on a non-empty all-digit string yields its value. -/
theorem pyInt_digits (ds : List Char) (hne : ds ≠ [])
    (hd : ∀ c ∈ ds, isDigitChar c = true) :
    pyInt ds = some (digitsToNat ds : Int) := by
  obtain ⟨c, t, rfl⟩ := List.exists_cons_of_ne_nil hne
  have hc := hd c (List.mem_cons_self c t)
  unfold pyInt
  rw [if_neg, if_neg, if_pos]
  · exact ⟨List.cons_ne_nil c t, List.all_eq_true.mpr hd⟩
  · simp only [List.head?_cons, Option.some.injEq]
    exact digit_ne_plus hc
  · simp only [List.head?_cons, Option.some.injEq]
    exact digit_ne_dash hc

/-- `pyFloatRep` on a non-empty all-digit string. -/
theorem pyFloatRep_digits (ds : List Char) (hne : ds ≠ [])
    (hd : ∀ c ∈ ds, isDigitChar c = true) :
    pyFloatRep ds = some ((digitsToNat ds : Int), 0) := by
  obtain ⟨c, t, rfl⟩ := List.exists_cons_of_ne_nil hne
  have hc := hd c (List.mem_cons_self c t)
  have hnodash : ¬ ((c :: t).head? = some '-') := by
    simp only [List.head?_cons, Option.some.injEq]
    exact digit_ne_dash hc
  have hnosign : ¬ ((c :: t).head? = some '-' ∨ (c :: t).head? = some '+') := by
    rintro (hs | hs)
    · exact hnodash hs
    · simp only [List.head?_cons, Option.some.injEq] at hs
      exact digit_ne_plus hc hs
  obtain ⟨htake, hdrop⟩ :=
    takeWhile_all (fun x => x != '.') (c :: t) (fun x hx => ne_dot_of_digit x (hd x hx))
  unfold pyFloatRep pyFloatParts
  rw [if_neg hnodash, if_neg hnosign, htake, hdrop]
  unfold pyFloatSplit
  rw [if_pos rfl, if_pos ⟨hne, List.all_eq_true.mpr hd⟩]
  simp

/-- `pyFloatRep` on `digits ++ '.' :: digits`. -/
theorem pyFloatRep_frac (ds fs : List Char) (hne : ds ≠ [])
    (hd : ∀ c ∈ ds, isDigitChar c = true) (hf : ∀ c ∈ fs, isDigitChar c = true) :
    pyFloatRep (ds ++ '.' :: fs) =
      some ((digitsToNat ds : Int) * (10 : Int) ^ fs.length + (digitsToNat fs : Int),
        fs.length) := by
  obtain ⟨c, t, rfl⟩ := List.exists_cons_of_ne_nil hne
  have hc := hd c (List.mem_cons_self c t)
  have hnodash : ¬ (((c :: t) ++ '.' :: fs).head? = some '-') := by
    simp only [List.cons_append, List.head?_cons, Option.some.injEq]
    exact digit_ne_dash hc
  have hnosign : ¬ ((((c :: t) ++ '.' :: fs).head? = some '-') ∨
      (((c :: t) ++ '.' :: fs).head? = some '+')) := by
    rintro (hs | hs)
    · exact hnodash hs
    · simp only [List.cons_append, List.head?_cons, Option.some.injEq] at hs
      exact digit_ne_plus hc hs
  obtain ⟨htake, hdrop⟩ := takeWhile_append_hit (fun x => x != '.') (c :: t) fs '.'
    (by decide) (fun x hx => ne_dot_of_digit x (hd x hx))
  unfold pyFloatRep pyFloatParts
  rw [if_neg hnodash, if_neg hnosign, htake, hdrop]
  unfold pyFloatSplit
  rw [if_neg (List.cons_ne_nil '.' fs),
    if_pos ⟨Or.inl hne, List.all_eq_true.mpr hd, by
      simpa using List.all_eq_true.mpr hf⟩]
  simp

theorem digitsToNat_concat (l : List Char) (c : Char) :
    digitsToNat (l ++ [c]) = digitsToNat l * 10 + digitVal c := by
  simp [digitsToNat, List.foldl_append]

theorem natToCharsAux_spec :
    ∀ (fuel n : Nat), n < 10 ^ fuel →
      digitsToNat (natToCharsAux fuel n) = n ∧
      ∀ c ∈ natToCharsAux fuel n, isDigitChar c = true := by
  intro fuel
  induction fuel with
  | zero =>
    intro n h
    simp only [pow_zero, Nat.lt_one_iff] at h
    subst h
    exact ⟨rfl, by intro c hc; simp [natToCharsAux] at hc⟩
  | succ f ih =>
    intro n h
    by_cases hn : n < 10
    · refine ⟨?_, ?_⟩
      · show digitsToNat (if n < 10 then [Nat.digitChar n]
          else natToCharsAux f (n / 10) ++ [Nat.digitChar (n % 10)]) = n
        rw [if_pos hn]
        simp [digitsToNat, digitVal_digitChar n hn]
      · intro c hc
        simp only [natToCharsAux, if_pos hn, List.mem_singleton] at hc
        exact hc ▸ isDigitChar_digitChar n hn
    · have h10 : n / 10 < 10 ^ f := by
        rw [Nat.div_lt_iff_lt_mul (by omega)]
        calc n < 10 ^ (f + 1) := h
        _ = 10 ^ f * 10 := by ring
      obtain ⟨ih1, ih2⟩ := ih (n / 10) h10
      refine ⟨?_, ?_⟩
      · show digitsToNat (if n < 10 then [Nat.digitChar n]
          else natToCharsAux f (n / 10) ++ [Nat.digitChar (n % 10)]) = n
        rw [if_neg hn, digitsToNat_concat, ih1, digitVal_digitChar (n % 10) (by omega)]
        omega
      · intro c hc
        simp only [natToCharsAux, if_neg hn, List.mem_append, List.mem_singleton] at hc
        rcases hc with hc | rfl
        · exact ih2 c hc
        · exact isDigitChar_digitChar (n % 10) (by omega)

theorem natToChars_spec (n : Nat) :
    digitsToNat (natToChars n) = n ∧
    (∀ c ∈ natToChars n, isDigitChar c = true) ∧ natToChars n ≠ [] := by
  have hpow : n < 10 ^ (n + 1) :=
    lt_of_lt_of_le (Nat.lt_pow_self (by omega) n)
      (Nat.pow_le_pow_right (by omega) (Nat.le_succ n))
  obtain ⟨h1, h2⟩ := natToCharsAux_spec (n + 1) n hpow
  refine ⟨h1, h2, ?_⟩
  show (if n < 10 then [Nat.digitChar n]
    else natToCharsAux n (n / 10) ++ [Nat.digitChar (n % 10)]) ≠ []
  by_cases hn : n < 10
  · rw [if_pos hn]; exact List.cons_ne_nil _ _
  · rw [if_neg hn]; simp

/-- `_parse_size` on a bare non-empty digit string takes the `int`
branch and yields the digit value. -/
theorem parseSizeChars_digits (ds : List Char) (hne : ds ≠ [])
    (hd : ∀ c ∈ ds, isDigitChar c = true) :
    parseSizeChars ds = (digitsToNat ds : Int) := by
  have hlastd : isDigitChar (ds.getLast hne) = true := hd _ (List.getLast_mem hne)
  have hmap := map_asciiUpper_digits ds hd
  have hstrip := pyStrip_no_space ds (fun c hc => not_space_of_digit c (hd c hc))
  unfold parseSizeChars
  rw [hmap, hstrip]
  unfold parseSizeScan
  rw [if_neg, if_neg, if_neg, pyInt_digits ds hne hd]
  · intro hlast
    rw [List.getLast?_eq_getLast ds hne, Option.some.injEq] at hlast
    exact digit_getLast_ne hlastd (by decide) hlast
  · intro hlast
    rw [List.getLast?_eq_getLast ds hne, Option.some.injEq] at hlast
    exact digit_getLast_ne hlastd (by decide) hlast
  · intro hlast
    rw [List.getLast?_eq_getLast ds hne, Option.some.injEq] at hlast
    exact digit_getLast_ne hlastd (by decide) hlast

theorem parseSizeChars_natToChars (d : Nat) : parseSizeChars (natToChars d) = (d : Int) := by
  obtain ⟨h1, h2, h3⟩ := natToChars_spec d
  rw [parseSizeChars_digits (natToChars d) h3 h2, h1]

/-- Parsing is idempotent on non-negative results: re-parsing the
decimal rendering of a non-negative parse result gives it back. -/
theorem parseSize_idem_nonneg (v : Int) (hv : 0 ≤ v) :
    parseSizeChars (intRepr v) = v := by
  unfold intRepr
  rw [if_neg (by omega), parseSizeChars_natToChars, Int.toNat_of_nonneg hv]

/-- `_parse_size` on `body ++ [suffix]`: the suffix branch fires and the
float value of `body` is scaled by the suffix multiplier. -/
theorem parseSizeChars_suffix (body : List Char) (u : Char) (hu : isSuffixChar u = true)
    (hb : ∀ x ∈ body, isDigitChar x = true ∨ x = '.') :
    parseSizeChars (body ++ [u]) =
      match pyFloatRep body with
      | some (m, k) => truncScaled m k (suffixMult u)
      | none => 0 := by
  have hmap := map_asciiUpper_digit_dot body hb
  have hstripbody : ∀ c ∈ body, isSpaceChar c = false := by
    intro c hc
    rcases hb c hc with hdig | rfl
    · exact not_space_of_digit c hdig
    · exact not_space_of_printable '.' (by decide)
  rcases suffix_cases hu with rfl | rfl | rfl | rfl | rfl | rfl <;>
  · unfold parseSizeChars
    rw [List.map_append, hmap]
    rw [show List.map asciiUpper [_] = [_] from rfl]
    rw [pyStrip_no_space _ (by
      intro c hc
      rcases List.mem_append.mp hc with hc | hc
      · exact hstripbody c hc
      · rw [List.mem_singleton] at hc
        subst hc
        decide)]
    unfold parseSizeScan
    rw [List.getLast?_concat, List.dropLast_concat]
    simp only [Option.some.injEq, if_true, if_false, reduceIte]
    rfl

theorem truncScaled_nonneg (m : Int) (k mult : Nat) (hm : 0 ≤ m) :
    0 ≤ truncScaled m k mult := by
  unfold truncScaled
  exact Int.tdiv_nonneg (by positivity) (by positivity)

theorem pyFloatSplit_nonneg (ip rest : List Char) (m : Int) (k : Nat)
    (h : pyFloatSplit 1 ip rest = some (m, k)) : 0 ≤ m := by
  unfold pyFloatSplit at h
  split at h
  · split at h
    · simp only [Option.some.injEq, Prod.mk.injEq] at h
      rw [← h.1]
      positivity
    · exact absurd h (by simp)
  · split at h
    · simp only [Option.some.injEq, Prod.mk.injEq] at h
      rw [← h.1]
      positivity
    · exact absurd h (by simp)

theorem pyFloatRep_nonneg (cs : List Char) (m : Int) (k : Nat)
    (hdash : '-' ∉ cs) (h : pyFloatRep cs = some (m, k)) : 0 ≤ m := by
  unfold pyFloatRep pyFloatParts at h
  rw [if_neg (fun he => hdash (head?_mem he))] at h
  exact pyFloatSplit_nonneg _ _ m k h

theorem pyInt_nonneg (cs : List Char) (n : Int)
    (hdash : '-' ∉ cs) (h : pyInt cs = some n) : 0 ≤ n := by
  unfold pyInt at h
  rw [if_neg (fun he => hdash (head?_mem he))] at h
  split at h
  · split at h
    · simp only [Option.some.injEq] at h
      rw [← h]
      positivity
    · exact absurd h (by simp)
  · split at h
    · simp only [Option.some.injEq] at h
      rw [← h]
      positivity
    · exact absurd h (by simp)

/-- `_parse_size` never returns a negative value on an input without a
minus sign. -/
theorem parseSizeChars_nonneg (cs0 : List Char) (hdash : '-' ∉ cs0) :
    0 ≤ parseSizeChars cs0 := by
  have hdash2 : '-' ∉ pyStrip (cs0.map asciiUpper) := by
    intro hm
    obtain ⟨d, hdm, hud⟩ := List.mem_map.mp (mem_pyStrip hm)
    exact hdash ((asciiUpper_eq_dash d hud) ▸ hdm)
  have hdashDrop : '-' ∉ (pyStrip (cs0.map asciiUpper)).dropLast :=
    fun hm => hdash2 ((List.dropLast_sublist _).mem hm)
  unfold parseSizeChars parseSizeScan
  split
  · split
    · rename_i m k heq
      exact truncScaled_nonneg m k 1024 (pyFloatRep_nonneg _ m k hdashDrop heq)
    · exact le_refl 0
  · split
    · split
      · rename_i m k heq
        exact truncScaled_nonneg m k (1024 * 1024) (pyFloatRep_nonneg _ m k hdashDrop heq)
      · exact le_refl 0
    · split
      · split
        · rename_i m k heq
          exact truncScaled_nonneg m k (1024 * 1024 * 1024)
            (pyFloatRep_nonneg _ m k hdashDrop heq)
        · exact le_refl 0
      · split
        · rename_i n heq
          exact pyInt_nonneg _ n hdash2 heq
        · exact le_refl 0

theorem head?_cons_of_ne_nil {α : Type} {l : List α} {a : α} (h : l.head? = some a) :
    l = a :: l.tail := by
  cases l with
  | nil => simp at h
  | cons b t =>
    simp only [List.head?_cons, Option.some.injEq] at h
    rw [h]
    rfl

/-- Shape of a successful `sizeDecomposeBody`: non-empty leading
digits, and the body is either just the digits or digits, a dot, and
non-empty fraction digits. -/
theorem sizeDecomposeBody_inv (body : List Char) (sfx : Option Char)
    (ds fs : List Char) (sfx' : Option Char)
    (h : sizeDecomposeBody body sfx = some (ds, fs, sfx')) :
    sfx' = sfx ∧ ds ≠ [] ∧ (∀ c ∈ ds, isDigitChar c = true) ∧
      (∀ c ∈ fs, isDigitChar c = true) ∧
      ((fs = [] ∧ body = ds) ∨ (fs ≠ [] ∧ body = ds ++ '.' :: fs)) := by
  unfold sizeDecomposeBody at h
  split at h
  · exact absurd h (by simp)
  · rename_i hds
    split at h
    · rename_i hrest
      simp only [Option.some.injEq, Prod.mk.injEq] at h
      obtain ⟨rfl, rfl, rfl⟩ := h
      refine ⟨rfl, hds, fun c hc => List.mem_takeWhile_imp hc,
        fun c hc => absurd hc (List.not_mem_nil c), Or.inl ⟨rfl, ?_⟩⟩
      conv_lhs => rw [← List.takeWhile_append_dropWhile (p := isDigitChar) (l := body)]
      rw [hrest, List.append_nil]
    · split at h
      · rename_i hcond
        obtain ⟨hdot, htail, hall⟩ := hcond
        simp only [Option.some.injEq, Prod.mk.injEq] at h
        obtain ⟨rfl, rfl, rfl⟩ := h
        refine ⟨rfl, hds, fun c hc => List.mem_takeWhile_imp hc,
          fun c hc => (List.all_eq_true.mp hall) c hc, Or.inr ⟨htail, ?_⟩⟩
        conv_lhs => rw [← List.takeWhile_append_dropWhile (p := isDigitChar) (l := body)]
        rw [congrArg (body.takeWhile isDigitChar ++ ·) (head?_cons_of_ne_nil hdot)]
      · exact absurd h (by simp)

/-- Shape of a successful `sizeDecompose`: the whole string is
digits, optional dot + fraction digits, optional suffix letter. -/
theorem sizeDecompose_inv (cs ds fs : List Char) (sfx : Option Char)
    (h : sizeDecompose cs = some (ds, fs, sfx)) :
    ds ≠ [] ∧ (∀ c ∈ ds, isDigitChar c = true) ∧ (∀ c ∈ fs, isDigitChar c = true) ∧
      ((sfx = none ∧ ((fs = [] ∧ cs = ds) ∨ (fs ≠ [] ∧ cs = ds ++ '.' :: fs))) ∨
       (∃ u, sfx = some u ∧ isSuffixChar u = true ∧
         ((fs = [] ∧ cs = ds ++ [u]) ∨ (fs ≠ [] ∧ cs = (ds ++ '.' :: fs) ++ [u])))) := by
  unfold sizeDecompose at h
  split at h
  · rename_i hlast
    cases hg : cs.getLast? with
    | none => rw [hg] at hlast; simp at hlast
    | some u =>
      rw [hg] at hlast
      simp only [Option.map_some', Option.getD_some] at hlast
      have hcsne : cs ≠ [] := by
        intro he
        rw [he] at hg
        simp at hg
      have hu : u = cs.getLast hcsne := by
        rw [List.getLast?_eq_getLast cs hcsne, Option.some.injEq] at hg
        exact hg.symm
      have hcs : cs.dropLast ++ [u] = cs := by
        rw [hu]
        exact List.dropLast_concat_getLast hcsne
      obtain ⟨hsfx, hds, hdig, hfdig, hshape⟩ := sizeDecomposeBody_inv _ _ _ _ _ h
      rw [hg] at hsfx
      refine ⟨hds, hdig, hfdig, Or.inr ⟨u, hsfx, hlast, ?_⟩⟩
      rcases hshape with ⟨hfe, hbody⟩ | ⟨hfne, hbody⟩
      · exact Or.inl ⟨hfe, by rw [← hcs, hbody]⟩
      · exact Or.inr ⟨hfne, by rw [← hcs, hbody]⟩
  · obtain ⟨hsfx, hds, hdig, hfdig, hshape⟩ := sizeDecomposeBody_inv _ _ _ _ _ h
    refine ⟨hds, hdig, hfdig, Or.inl ⟨hsfx, ?_⟩⟩
    rcases hshape with ⟨hfe, hbody⟩ | ⟨hfne, hbody⟩
    · exact Or.inl ⟨hfe, hbody⟩
    · exact Or.inr ⟨hfne, hbody⟩

theorem digitsToNat_nil : digitsToNat [] = 0 := rfl

/-- **C8 (counterexample)** — The claim quantifies over every string
matching `^\d+(\.\d+)?[KMG]?$`, but `"1.5"` matches and parses to `0`
(the bare-number branch uses `int("1.5")`, which raises, so
`_parse_size` returns `0`), while the expected byte count of `"1.5"`
is `1`. -/
theorem c8_counterexample :
    sizeRegexMatch "1.5".data = true ∧ parseSize "1.5" = 0 ∧
      specBytes "1.5".data = 1 ∧ parseSize "1.5" ≠ specBytes "1.5".data := by
  refine ⟨by decide, by decide, by decide, by decide⟩

/-- On the integral fragment `_parse_size` returns exactly the digit
value times the suffix multiplier, and the result is non-negative. -/
theorem parseSizeChars_exactMatch (cs : List Char) (hm : sizeExactMatch cs = true) :
    parseSizeChars cs = intGrammarBytes cs ∧ 0 ≤ parseSizeChars cs := by
  unfold sizeExactMatch at hm
  cases hdec : sizeDecompose cs with
  | none => rw [hdec] at hm; simp at hm
  | some val =>
    obtain ⟨ds, fs, sfx⟩ := val
    rw [hdec] at hm
    simp only [decide_eq_true_eq] at hm
    obtain ⟨hfs, -⟩ := hm
    obtain ⟨hds, hdig, hfdig, hshape⟩ := sizeDecompose_inv cs ds fs sfx hdec
    have hval : intGrammarBytes cs =
        (digitsToNat ds : Int) * (suffixMultOpt sfx : Int) := by
      simp only [intGrammarBytes, hdec]
    rcases hshape with ⟨hsfx, hsub⟩ | ⟨u, hsfx, hu, hsub⟩
    · rcases hsub with ⟨hfe, hcs⟩ | ⟨hfne, hcs⟩
      · subst hsfx hfe hcs
        constructor
        · rw [parseSizeChars_digits _ hds hdig, hval]
          simp [suffixMultOpt]
        · rw [parseSizeChars_digits _ hds hdig]
          positivity
      · exact absurd hfs hfne
    · rcases hsub with ⟨hfe, hcs⟩ | ⟨hfne, hcs⟩
      · subst hsfx hfe hcs
        have hp := parseSizeChars_suffix ds u hu (fun x hx => Or.inl (hdig x hx))
        simp only [pyFloatRep_digits ds hds hdig] at hp
        constructor
        · rw [hp, hval]
          simp [truncScaled, suffixMultOpt, Int.tdiv_one]
        · rw [hp]
          exact truncScaled_nonneg _ _ _ (by positivity)
      · exact absurd hfs hfne

/-- **C8 (amended)** — For every size/rate string of the integral
fragment of the claim's grammar — `^\d+[KMG]?$` case-insensitively,
with at most 15 digits when a suffix is present, so the source's
double-precision step is exact — parsing yields the expected byte
count (the digit value times 1024 for `K`, 1024² for `M`, 1024³ for
`G`), is non-negative, and is idempotent: re-parsing the decimal
rendering of the result gives the result back.  In particular
`"1M" ↦ 1048576`, `"500K" ↦ 512000`, `"100" ↦ 100`.  Fractional
strings are excluded: without a suffix `_parse_size` returns `0` (the
counterexample), and with a suffix the source truncates after IEEE-754
rounding — e.g. `float("0.00097656249999999999")` *is* `2⁻¹⁰`, so
`"0.00097656249999999999K"` yields `1` in the source where the exact
decimal value truncates to `0` — and values past the double range
raise an uncaught `OverflowError`, so no exact-integer statement
covers them. -/
theorem c8_size_parsing_expected_and_idempotent :
    (∀ cs : List Char, sizeExactMatch cs = true →
      parseSizeChars cs = intGrammarBytes cs ∧ 0 ≤ parseSizeChars cs ∧
      parseSizeChars (intRepr (parseSizeChars cs)) = parseSizeChars cs) ∧
    parseSize "1M" = 1048576 ∧ parseSize "500K" = 512000 ∧ parseSize "100" = 100 := by
  refine ⟨?_, by decide, by decide, by decide⟩
  intro cs hm
  obtain ⟨h1, h2⟩ := parseSizeChars_exactMatch cs hm
  exact ⟨h1, h2, parseSize_idem_nonneg _ h2⟩

/-- Witness for the amended C8 at `"500K"`. -/
theorem c8_size_parsing_witness :
    sizeExactMatch "500K".data = true ∧
      parseSizeChars "500K".data = intGrammarBytes "500K".data :=
  ⟨by decide, (c8_size_parsing_expected_and_idempotent.1 "500K".data (by decide)).1⟩

theorem lookup_cons_self {beta : Type} (k : String) (v : beta) (rest : List (String × beta)) :
    List.lookup k ((k, v) :: rest) = some v := by
  simp [List.lookup]

theorem lookup_cons_ne {beta : Type} (k k' : String) (hk : (k == k') = false) (v : beta)
    (rest : List (String × beta)) :
    List.lookup k ((k', v) :: rest) = List.lookup k rest := by
  simp [List.lookup, hk]

theorem lookup_append_right {beta : Type} (k : String) (l1 l2 : List (String × beta))
    (hl : ∀ p ∈ l1, (k == p.1) = false) :
    List.lookup k (l1 ++ l2) = List.lookup k l2 := by
  induction l1 with
  | nil => rfl
  | cons a t ih =>
    obtain ⟨k', v⟩ := a
    rw [List.cons_append, lookup_cons_ne k k' (hl (k', v) (List.mem_cons_self _ t)) v]
    exact ih (fun p hp => hl p (List.mem_cons_of_mem _ hp))

/-- Every entry of one optional limit segment has the segment's own
key, so lookups for a different key skip it. -/
theorem limitSeg_keys_ne (o : Option String) (key other : String)
    (hk : (other == key) = false) :
    ∀ p ∈ limitSeg o key, (other == p.1) = false := by
  intro p hp
  cases o with
  | none => simp [limitSeg] at hp
  | some s =>
    simp only [limitSeg] at hp
    by_cases hs : s ≠ ""
    · rw [if_pos hs] at hp
      rw [List.mem_singleton] at hp
      rw [hp]
      exact hk
    · rw [if_neg hs] at hp
      simp at hp

theorem limitSeg_some (o : Option String) (key s : String) (ho : o = some s)
    (hne : s ≠ "") : limitSeg o key = [(key, parseSize s)] := by
  rw [ho]
  simp only [limitSeg]
  rw [if_pos hne]

/-- `_parse_size` after upper/strip on a non-empty all-uppercase-letter
list not ending in a suffix letter: every branch misses and the `int`
fallback raises `ValueError`, so the result is `0`. -/
theorem parseSizeScan_letters (us : List Char) (hne : us ≠ [])
    (hl : ∀ c ∈ us, 65 ≤ c.toNat ∧ c.toNat ≤ 90)
    (hK : us.getLast? ≠ some 'K') (hM : us.getLast? ≠ some 'M')
    (hG : us.getLast? ≠ some 'G') :
    parseSizeScan us = 0 := by
  obtain ⟨c, t, rfl⟩ : ∃ c t, us = c :: t := by
    cases us with
    | nil => exact absurd rfl hne
    | cons c t => exact ⟨c, t, rfl⟩
  have hc := hl c (List.mem_cons_self c t)
  have hcd : isDigitChar c = false := by
    rcases Bool.eq_false_or_eq_true (isDigitChar c) with hb | hb
    · have h2 := isDigitChar_toNat hb
      omega
    · exact hb
  have hnd : ¬((c :: t).head? = some '-') := by
    intro h
    rw [List.head?_cons, Option.some.injEq] at h
    have := toNat_eq_of_char_eq h
    simp only [show ('-').toNat = 45 from rfl] at this
    omega
  have hnp : ¬((c :: t).head? = some '+') := by
    intro h
    rw [List.head?_cons, Option.some.injEq] at h
    have := toNat_eq_of_char_eq h
    simp only [show ('+').toNat = 43 from rfl] at this
    omega
  have hnall : ¬(c :: t ≠ [] ∧ (c :: t).all isDigitChar) := by
    rintro ⟨-, hall⟩
    rw [List.all_cons, Bool.and_eq_true] at hall
    exact absurd hall.1 (by simp [hcd])
  have hpy : pyInt (c :: t) = none := by
    unfold pyInt
    rw [if_neg hnd, if_neg hnp, if_neg hnall]
  unfold parseSizeScan
  rw [if_neg hK, if_neg hM, if_neg hG]
  simp only [hpy]

/-- `_parse_size` of a non-empty string of ASCII letters whose
uppercased last letter is not a suffix letter is `0`: `int()` raises
`ValueError`, which `_parse_size` catches. -/
theorem parseSizeChars_letters (cs : List Char) (hne : cs ≠ [])
    (hl : ∀ c ∈ cs, 65 ≤ (asciiUpper c).toNat ∧ (asciiUpper c).toNat ≤ 90)
    (hK : (cs.map asciiUpper).getLast? ≠ some 'K')
    (hM : (cs.map asciiUpper).getLast? ≠ some 'M')
    (hG : (cs.map asciiUpper).getLast? ≠ some 'G') :
    parseSizeChars cs = 0 := by
  unfold parseSizeChars
  rw [pyStrip_no_space _ (by
    intro c hcm
    obtain ⟨d, hd, rfl⟩ := List.mem_map.mp hcm
    exact not_space_of_printable _ (by have := (hl d hd).1; omega))]
  apply parseSizeScan_letters _ _ _ hK hM hG
  · intro hmape
    apply hne
    have hlen := congrArg List.length hmape
    rw [List.length_map] at hlen
    exact List.length_eq_zero.mp hlen
  · intro c hcm
    obtain ⟨d, hd, rfl⟩ := List.mem_map.mp hcm
    exact hl d hd

/-- **C7 (counterexample)** — The claim says a size string that does not
parse is dropped from the options and that the value placed is always a
non-negative byte count.  But `rate_limit = "notasize"` places
`ratelimit = 0` in the options (not dropped), and `rate_limit = "-5"`
places the negative value `-5`. -/
theorem c7_counterexample :
    (buildLimitOpts { rate_limit := some "notasize" }).lookup "ratelimit" = some 0 ∧
    (buildLimitOpts { rate_limit := some "-5" }).lookup "ratelimit" = some (-5) ∧
    ((-5 : Int) < 0) := by
  refine ⟨by decide, by decide, by decide⟩

/-- **C7 (amended)** — Every non-empty `rate_limit` / `max_filesize` /
`min_filesize` string supplied in a request populates its engine
option key — nothing is dropped.  On the integral fragment of the size
grammar (digits with an optional case-insensitive `K`/`M`/`G` suffix,
at most 15 digits when suffixed, where the source's arithmetic is
exact) the placed value is the exact non-negative byte count; a string
of ASCII letters not ending in a suffix letter makes `int()` raise
`ValueError`, and `_parse_size` places `0` (with a warning) rather
than dropping the key.  Strings whose `float()` value overflows the
double (`"infK"`) raise an uncaught `OverflowError` in the source and
fail the request — they also refute the original claim's
"never causes the request to fail" and are outside this model. -/
theorem c7_limit_options_populated_total :
    (∀ (req : DownloadRequest) (s : String), req.rate_limit = some s → s ≠ "" →
      sizeExactMatch s.data = true →
      (buildLimitOpts req).lookup "ratelimit" = some (intGrammarBytes s.data) ∧
      0 ≤ intGrammarBytes s.data) ∧
    (∀ (req : DownloadRequest) (s : String), req.max_filesize = some s → s ≠ "" →
      sizeExactMatch s.data = true →
      (buildLimitOpts req).lookup "max_filesize" = some (intGrammarBytes s.data) ∧
      0 ≤ intGrammarBytes s.data) ∧
    (∀ (req : DownloadRequest) (s : String), req.min_filesize = some s → s ≠ "" →
      sizeExactMatch s.data = true →
      (buildLimitOpts req).lookup "min_filesize" = some (intGrammarBytes s.data) ∧
      0 ≤ intGrammarBytes s.data) ∧
    (∀ (req : DownloadRequest) (s : String), req.rate_limit = some s → s.data ≠ [] →
      (∀ c ∈ s.data, 65 ≤ (asciiUpper c).toNat ∧ (asciiUpper c).toNat ≤ 90) →
      (s.data.map asciiUpper).getLast? ≠ some 'K' →
      (s.data.map asciiUpper).getLast? ≠ some 'M' →
      (s.data.map asciiUpper).getLast? ≠ some 'G' →
      (buildLimitOpts req).lookup "ratelimit" = some 0) := by
  refine ⟨?_, ?_, ?_, ?_⟩
  · intro req s hr hne hm
    obtain ⟨hv, hnn⟩ := parseSizeChars_exactMatch s.data hm
    refine ⟨?_, hv ▸ hnn⟩
    unfold buildLimitOpts
    rw [limitSeg_some _ _ _ hr hne, List.append_assoc, List.singleton_append,
      lookup_cons_self]
    exact congrArg some hv
  · intro req s hr hne hm
    obtain ⟨hv, hnn⟩ := parseSizeChars_exactMatch s.data hm
    refine ⟨?_, hv ▸ hnn⟩
    unfold buildLimitOpts
    rw [limitSeg_some _ _ _ hr hne, List.append_assoc,
      lookup_append_right _ _ _
        (limitSeg_keys_ne req.rate_limit "ratelimit" "max_filesize" (by decide)),
      List.singleton_append, lookup_cons_self]
    exact congrArg some hv
  · intro req s hr hne hm
    obtain ⟨hv, hnn⟩ := parseSizeChars_exactMatch s.data hm
    refine ⟨?_, hv ▸ hnn⟩
    unfold buildLimitOpts
    rw [limitSeg_some _ _ _ hr hne, List.append_assoc,
      lookup_append_right _ _ _
        (limitSeg_keys_ne req.rate_limit "ratelimit" "min_filesize" (by decide)),
      lookup_append_right _ _ _
        (limitSeg_keys_ne req.max_filesize "max_filesize" "min_filesize" (by decide)),
      lookup_cons_self]
    exact congrArg some hv
  · intro req s hr hdata hlet hK hM hG
    have hne : s ≠ "" := fun h => hdata (by subst h; rfl)
    unfold buildLimitOpts
    rw [limitSeg_some _ _ _ hr hne, List.append_assoc, List.singleton_append,
      lookup_cons_self]
    exact congrArg some (parseSizeChars_letters s.data hdata hlet hK hM hG)

/-- Witness for the amended C7: a request with all three limit strings
set gets all three keys populated with the exact byte counts, and an
unparsable `"notasize"` rate limit is placed as `0`, not dropped. -/
theorem c7_limit_options_witness :
    (buildLimitOpts (DownloadRequest.mk none (some "2M") (some "1G")
      (some "100"))).lookup "ratelimit" = some (intGrammarBytes "2M".data) ∧
    (buildLimitOpts (DownloadRequest.mk none (some "2M") (some "1G")
      (some "100"))).lookup "max_filesize" = some (intGrammarBytes "1G".data) ∧
    (buildLimitOpts (DownloadRequest.mk none (some "2M") (some "1G")
      (some "100"))).lookup "min_filesize" = some (intGrammarBytes "100".data) ∧
    (buildLimitOpts (DownloadRequest.mk none (some "notasize") none
      none)).lookup "ratelimit" = some 0 :=
  ⟨(c7_limit_options_populated_total.1 _ "2M" rfl (by decide) (by decide)).1,
   (c7_limit_options_populated_total.2.1 _ "1G" rfl (by decide) (by decide)).1,
   (c7_limit_options_populated_total.2.2.1 _ "100" rfl (by decide) (by decide)).1,
   c7_limit_options_populated_total.2.2.2 _ "notasize" rfl (by decide) (by decide)
     (by decide) (by decide) (by decide)⟩

/-! ## POSIX path model

Paths are lists of name components of an absolute path
(`["w","cache","yt_dlp","abc"]` renders as `/w/cache/yt_dlp/abc`).
`resolveComps` is `Path.resolve()` on a filesystem without symbolic
links: lexical normalisation from the root (`..` from the root stays at
the root, as on POSIX). -/

abbrev PathC := List String

/-- The character sequence of `str(path)` for an absolute path. -/
def renderPath (p : PathC) : List Char := p.flatMap (fun c => '/' :: c.data)

/-- `str.split("/")`, accumulating the current segment. -/
def splitSlashAux : List Char → List Char → List String
  | [], acc => [String.mk acc.reverse]
  | '/' :: rest, acc => String.mk acc.reverse :: splitSlashAux rest []
  | c :: rest, acc => splitSlashAux rest (c :: acc)

/-- Segments of a path string between `/` separators. -/
def splitSlash (cs : List Char) : List String := splitSlashAux cs []

/-- `Path.resolve()` without symlinks: drop `""`/`"."`, pop on `".."`. -/
def resolveComps (p : PathC) : PathC :=
  p.foldl (fun acc c =>
    if c = "" ∨ c = "." then acc
    else if c = ".." then acc.dropLast
    else acc ++ [c]) []

/-- Components of a relative path string (POSIX: split on `/`; `\`
is an ordinary name character).  `Path()` construction drops empty
segments and `"."` but keeps `".."`. -/
def pathComps (t : String) : List String :=
  (splitSlash t.data).filter (fun c => ¬ (c = "" ∨ c = "."))

/-- `base / t` (`pathlib` join): an absolute right operand discards the
base. -/
def pyJoin (base : PathC) (t : String) : PathC :=
  if t.data.head? = some '/' then pathComps t else base ++ pathComps t

/-- `s.replace("..", "")`: remove the non-overlapping occurrences of
`".."`, scanning left to right. -/
def stripDotDot : List Char → List Char
  | [] => []
  | '.' :: '.' :: rest => stripDotDot rest
  | c :: rest => c :: stripDotDot rest

/-- `s.lstrip(ch)` for a single-character set. -/
def lstripChar (ch : Char) (cs : List Char) : List Char :=
  cs.dropWhile (fun c => c = ch)

/-- The output-template sanitization of `build_ydl_opts`
(config_builder.py lines 99–105), as the path the stored `outtmpl`
denotes: strip `".."`, strip leading `/` then leading `\`, join onto
the job directory, and fall back to the safe default template when the
resolved join does not *string*-start-with the resolved job directory.
`outputDir` is taken already resolved (plain components), matching
`output_dir.resolve()` of a normalized job directory. -/
def sanitizedOuttmpl (outputDir : PathC) (tmpl : String) : PathC :=
  if List.isPrefixOf (renderPath (resolveComps outputDir))
      (renderPath (resolveComps (pyJoin outputDir
        (String.mk (lstripChar '\\' (lstripChar '/' (stripDotDot tmpl.data))))))) then
    pyJoin outputDir (String.mk (lstripChar '\\' (lstripChar '/' (stripDotDot tmpl.data))))
  else
    pyJoin outputDir "%(title)s.%(ext)s"

/-- The `outtmpl` option of `build_ydl_opts` (config_builder.py lines
98–107): the sanitized user template, or the default
`%(title).200B.%(ext)s` when none is supplied. -/
def buildOuttmpl (outputDir : PathC) (req : DownloadRequest) : PathC :=
  match req.output_template with
  | some t => sanitizedOuttmpl outputDir t
  | none => pyJoin outputDir "%(title).200B.%(ext)s"

/-- **C1** — The claim states that the resolved output template is
always a descendant of the job directory, and that any template that
would resolve outside the job directory is replaced by the safe default.
The code violates it: the sanitizer removes `".."` and then strips
leading `/` *before* leading `\`, so a template starting with `\/` is
turned into an absolute path, and the containment check is a plain
string-prefix test, so an absolute path whose string extends the job
directory's string passes it.  With job directory `/w/cache/yt_dlp/a1b2`
the template `\/w/cache/yt_dlp/a1b2X/evil.%(ext)s` survives
sanitization and the resulting `outtmpl` resolves to
`/w/cache/yt_dlp/a1b2X/evil.%(ext)s` — outside the job directory, with
no fallback to the default template. -/
theorem c1_output_template_escapes_job_dir :
    resolveComps (buildOuttmpl ["w", "cache", "yt_dlp", "a1b2"]
        (DownloadRequest.mk (some "\\/w/cache/yt_dlp/a1b2X/evil.%(ext)s") none none none)) =
      ["w", "cache", "yt_dlp", "a1b2X", "evil.%(ext)s"] ∧
    ¬ (["w", "cache", "yt_dlp", "a1b2"] <+:
        resolveComps (buildOuttmpl ["w", "cache", "yt_dlp", "a1b2"]
          (DownloadRequest.mk (some "\\/w/cache/yt_dlp/a1b2X/evil.%(ext)s") none none none))) := by
  refine ⟨by decide, by decide⟩

/-! ## File serving gateway: `endpoints.py`, `download_file` (lines 52–79)

The filesystem is a list of absolute file paths; a directory exists iff
it is a proper prefix of some file.  `rglob(filename)` (CPython 3.11
semantics) matches `**/` followed by the literal components of
`filename`: for each existing directory at or below the base, the
candidate `dir ++ components` matched with an existence check (`..`
components climb, resolved here lexically — no symlinks in the model).
The served path keeps its unresolved form, as `matches[0]` does.
Enumeration order of matches is abstracted by the candidate list order;
the claims proved here do not depend on it. -/

structure FileSystem where
  files : List PathC
deriving DecidableEq, Repr

/-- All directories an existing file path witnesses (its proper
prefixes, root included). -/
def properPrefixes (f : PathC) : List PathC :=
  (List.range f.length).map (fun n => f.take n)

/-- `base.rglob(pattern)` for a literal pattern, filtered to files
(the `f.is_file()` filter of line 60). -/
def rglobMatches (fs : FileSystem) (base : PathC) (ps : List String) : List PathC :=
  ((base :: (fs.files.flatMap properPrefixes).filter
      (fun d => base.isPrefixOf d ∧ d ≠ base)).map (fun d => d ++ ps)).filter
    (fun cand => decide (resolveComps cand ∈ fs.files))

/-- Responses of `download_file`: 404 (unknown id, or no match), 403
(match escapes the job directory), or the served file path.  Media type
and content-disposition headers are not modelled. -/
inductive ServeResponse where
  | notFound (msg : String)
  | forbidden
  | ok (path : PathC)
deriving DecidableEq, Repr

/-- `download_file(download_id, filename)` (endpoints.py lines 52–79):
look up the registered base directory, search recursively for the
filename, and serve `matches[0]` only if its real path string-starts
with the real base directory string; otherwise 403. -/
def downloadFile (fs : FileSystem) (active : List (String × PathC))
    (downloadId filename : String) : ServeResponse :=
  match active.lookup downloadId with
  | none => .notFound "Download expired or not found"
  | some baseDir =>
    match rglobMatches fs baseDir (splitSlash filename.data) with
    | [] => .notFound "File not found"
    | filePath :: _ =>
      if List.isPrefixOf (renderPath (resolveComps baseDir))
          (renderPath (resolveComps filePath)) then .ok filePath
      else .forbidden

/-- **C2 (counterexample)** — The claim says resolving
`"../../etc/passwd"` returns `Forbidden` for any registered job.  On a
standard layout it returns `NotFound` instead: `rglob` climbs two
levels from the job directory, so the candidate is
`/w/cache/etc/passwd`, which does not exist — no match is ever found,
and the 403 branch is not reached (404 is). -/
theorem c2_counterexample :
    downloadFile
      (FileSystem.mk [["w", "cache", "yt_dlp", "j1", "video.mp4"], ["etc", "passwd"]])
      [("j1", ["w", "cache", "yt_dlp", "j1"])]
      "j1" "../../etc/passwd" = .notFound "File not found" ∧
    (ServeResponse.notFound "File not found" ≠ .forbidden) := by
  refine ⟨by decide, by decide⟩

/-- **C2 (amended)** — For every registered job, serving never trusts
the filename alone: whenever `download_file` serves a file, the
recomputed real path of the served file is a descendant of the
registered job directory.  (A traversal filename such as
`"../../etc/passwd"` yields `NotFound` when its target does not exist
relative to a searched directory, and `Forbidden` when a match is found
whose real path escapes.)  The hypothesis `hanom` rules out unrelated
paths whose rendered string extends the job directory's string (true in
deployment: sibling job directories have fixed-length ids), since the
code's containment check is a string-prefix test. -/
theorem c2_served_file_inside_job_dir
    (fs : FileSystem) (active : List (String × PathC)) (downloadId : String)
    (baseDir : PathC) (filename : String) (f : PathC)
    (hreg : active.lookup downloadId = some baseDir)
    (hanom : ∀ p ∈ fs.files,
      List.isPrefixOf (renderPath (resolveComps baseDir)) (renderPath p) →
      resolveComps baseDir <+: p)
    (hok : downloadFile fs active downloadId filename = .ok f) :
    resolveComps baseDir <+: resolveComps f := by
  unfold downloadFile at hok
  simp only [hreg] at hok
  cases hmat : rglobMatches fs baseDir (splitSlash filename.data) with
  | nil =>
    rw [hmat] at hok
    exact ServeResponse.noConfusion hok
  | cons m rest =>
    simp only [hmat] at hok
    split at hok
    · rename_i hpre
      simp only [ServeResponse.ok.injEq] at hok
      subst hok
      have hmem : m ∈ rglobMatches fs baseDir (splitSlash filename.data) := by
        rw [hmat]
        exact List.mem_cons_self m rest
      unfold rglobMatches at hmem
      have hfile := List.of_mem_filter hmem
      have hfmem : resolveComps m ∈ fs.files := of_decide_eq_true hfile
      exact hanom (resolveComps m) hfmem hpre
    · exact ServeResponse.noConfusion hok

/-- Witness for the amended C2: a normal filename in a registered job is
served, and the theorem places its resolved path inside the job
directory. -/
theorem c2_served_file_inside_job_dir_witness :
    resolveComps ["w", "cache", "yt_dlp", "j1"] <+:
      resolveComps ["w", "cache", "yt_dlp", "j1", "video.mp4"] :=
  c2_served_file_inside_job_dir
    (FileSystem.mk [["w", "cache", "yt_dlp", "j1", "video.mp4"], ["etc", "passwd"]])
    [("j1", ["w", "cache", "yt_dlp", "j1"])] "j1"
    ["w", "cache", "yt_dlp", "j1"] "video.mp4"
    ["w", "cache", "yt_dlp", "j1", "video.mp4"]
    (by decide) (by decide) (by decide)

/-! ## Result classification: `downloader.py` lines 111–156 and
`endpoints.py` `unidl` lines 126–248.

A job directory's contents are modelled as the list of its file names
(the claims concern the non-playlist flat layout where the downloader's
`glob("*")` and the endpoint's `rglob("*")` see the same files). -/

/-- ASCII `str.lower()`: uppercase letters shifted up by 32. -/
def asciiLower (c : Char) : Char :=
  if 65 ≤ c.toNat ∧ c.toNat ≤ 90 then Char.ofNat (c.toNat + 32) else c

/-- `Path(name).suffix`: from the rightmost dot, empty when there is no
dot, the dot is the first character, or the dot is last. -/
def pySuffix (name : String) : String :=
  if (name.data.reverse.takeWhile (fun c => c != '.')).length = name.data.length then ""
  else if name.data.reverse.takeWhile (fun c => c != '.') = [] then ""
  else if (name.data.reverse.takeWhile (fun c => c != '.')).length + 1 =
      name.data.length then ""
  else String.mk ('.' :: (name.data.reverse.takeWhile (fun c => c != '.')).reverse)

/-- `f.suffix.lower()`. -/
def suffixLower (name : String) : String :=
  String.mk ((pySuffix name).data.map asciiLower)

/-- Media extensions of the downloader's classification
(downloader.py line 118). -/
def DL_MEDIA_EXTS : List String := [".mp4", ".webm", ".mkv", ".mp3", ".m4a", ".opus"]

/-- Subtitle extensions of the endpoint (endpoints.py line 182). -/
def SUBTITLE_EXTS : List String := [".vtt", ".srt", ".ass", ".ssa"]

/-- Noise extensions excluded from playlist manifests
(endpoints.py line 131). -/
def SKIP_EXTS : List String :=
  [".json", ".txt", ".description", ".jpg", ".jpeg", ".png", ".webp", ".part", ".ytdl"]

/-- What `download_youtube_video` returns after a successful engine run
(downloader.py lines 111–156): an error when no media file was
produced, the single media file's path when exactly one was, the
directory path otherwise. -/
inductive DownloadOutcome where
  | failed
  | file (name : String)
  | dir
deriving DecidableEq, Repr

def downloadClassify (files : List String) : DownloadOutcome :=
  match files.filter (fun f => DL_MEDIA_EXTS.contains (suffixLower f)) with
  | [] => .failed
  | [f] => .file f
  | _ => .dir

/-- `sorted(..., key=lambda f: f.name)`: insertion sort by name. -/
def insertName (x : String) : List String → List String
  | [] => [x]
  | y :: t => if x ≤ y then x :: y :: t else y :: insertName x t

def sortNames : List String → List String
  | [] => []
  | x :: t => insertName x (sortNames t)

/-- Responses of `unidl` after a successful download (endpoints.py
lines 126–248): the playlist JSON manifest, the video+subtitles JSON
manifest (`"playlist": false, "has_subtitles": true` — the
bundle-with-subtitles shape), the direct `FileResponse`, or a 500. -/
inductive UnidlResponse where
  | errorResp
  | playlistManifest (files : List String)
  | bundleManifest (files : List String)
  | directFile (name : String)
deriving DecidableEq, Repr

def unidlRespond (files : List String) : UnidlResponse :=
  match downloadClassify files with
  | .failed => .errorResp
  | .dir =>
    if files.filter (fun f => ¬ SKIP_EXTS.contains (suffixLower f)) = [] then .errorResp
    else .playlistManifest
      (sortNames (files.filter (fun f => ¬ SKIP_EXTS.contains (suffixLower f))))
  | .file v =>
    if files.filter (fun f => SUBTITLE_EXTS.contains (suffixLower f)) = [] then
      .directFile v
    else
      .bundleManifest
        (v :: sortNames (files.filter (fun f => SUBTITLE_EXTS.contains (suffixLower f))))

theorem length_insertName (x : String) (l : List String) :
    (insertName x l).length = l.length + 1 := by
  induction l with
  | nil => rfl
  | cons y t ih =>
    unfold insertName
    split
    · simp
    · simp [ih]

theorem length_sortNames (l : List String) : (sortNames l).length = l.length := by
  induction l with
  | nil => rfl
  | cons x t ih =>
    unfold sortNames
    rw [length_insertName, ih, List.length_cons]

/-- **C5** — For every completed job whose output directory contains
exactly one media artifact (a single `.mp4`) plus at least one subtitle
file, the response is the bundle-with-subtitles manifest listing the
media file and the sorted subtitle files — two artifacts when there is
exactly one `.vtt`. -/
theorem c5_single_media_plus_subtitles_is_bundle
    (files : List String) (v : String) (ss : List String)
    (hmedia : files.filter (fun f => DL_MEDIA_EXTS.contains (suffixLower f)) = [v])
    (hmp4 : suffixLower v = ".mp4")
    (hsubs : files.filter (fun f => SUBTITLE_EXTS.contains (suffixLower f)) = ss)
    (hne : ss ≠ []) :
    unidlRespond files = .bundleManifest (v :: sortNames ss) ∧
    (v :: sortNames ss).length = 1 + ss.length ∧
    (∀ s, ss = [s] → suffixLower s = ".vtt" → (v :: sortNames ss).length = 2) := by
  refine ⟨?_, ?_, ?_⟩
  · unfold unidlRespond downloadClassify
    rw [hmedia]
    simp only [hsubs, if_neg hne]
  · rw [List.length_cons, length_sortNames]
    omega
  · intro s hss _
    rw [List.length_cons, length_sortNames, hss]
    rfl

/-- Witness for C5: a directory with `video.mp4` and `video.en.vtt`
yields the bundle manifest with two artifacts. -/
theorem c5_single_media_plus_subtitles_is_bundle_witness :
    unidlRespond ["video.mp4", "video.en.vtt"] =
      .bundleManifest ["video.mp4", "video.en.vtt"] ∧
    (["video.mp4"] ++ ["video.en.vtt"]).length = 2 := by
  have h := c5_single_media_plus_subtitles_is_bundle
    ["video.mp4", "video.en.vtt"] "video.mp4" ["video.en.vtt"]
    (by decide) (by decide) (by decide) (by decide)
  exact ⟨h.1, h.2.2 "video.en.vtt" rfl (by decide)⟩

/-! ## Failure effects: registration and partial files

`unidl` touches `_active_downloads` only on the manifest paths
(endpoints.py lines 142 and 191), both after `download_media` returned
successfully; an exception from the download (lines 120–124) re-raises
before any registration.  `_download_with_retry` re-invokes
`ydl.extract_info` with no cleanup step between attempts: nothing in
downloader.py removes files from the job directory before the next
attempt (the only deletion in the service is `_cleanup_download`,
scheduled after a response).  The retry loop is therefore instrumented
with the job directory contents: each engine invocation appends the
files it wrote, and the returned trace records the directory contents
observed at the start of each attempt. -/

def retryFilesAux (engine : Nat → EngineResult Unit × List String) :
    Nat → Nat → List String → EngineResult Unit × Nat × List (Nat × List String)
  | i, rem, files =>
    match rem, (engine i).1 with
    | _, .ok v => (.ok v, i + 1, [(i, files)])
    | 0, .error e => (.error e, i + 1, [(i, files)])
    | r + 1, .error e =>
      if e.isTransient then
        ((retryFilesAux engine (i + 1) r (files ++ (engine i).2)).1,
         (retryFilesAux engine (i + 1) r (files ++ (engine i).2)).2.1,
         (i, files) :: (retryFilesAux engine (i + 1) r (files ++ (engine i).2)).2.2)
      else (.error e, i + 1, [(i, files)])

/-- `_download_with_retry` with the job-directory instrumentation,
starting from an empty job directory. -/
def downloadWithRetryFiles (engine : Nat → EngineResult Unit × List String)
    (maxAttempts : Nat) : EngineResult Unit × Nat × List (Nat × List String) :=
  retryFilesAux engine 0 (maxAttempts - 1) []

/-- How `unidl` updates `_active_downloads`: registration happens only
on the two manifest paths, after a successful download; a raised
download error leaves the table untouched. -/
def unidlUpdateActive (active : List (String × PathC)) (downloadId : String)
    (downloadDir : PathC) (outcome : EngineResult (List String)) :
    List (String × PathC) :=
  match outcome with
  | .error _ => active
  | .ok files =>
    match unidlRespond files with
    | .playlistManifest _ => active ++ [(downloadId, downloadDir)]
    | .bundleManifest _ => active ++ [(downloadId, downloadDir)]
    | _ => active

theorem retryFilesAux_trace_head (engine : Nat → EngineResult Unit × List String)
    (i rem : Nat) (files : List String) :
    ((retryFilesAux engine i rem files).2.2).head? = some (i, files) := by
  cases rem with
  | zero =>
    unfold retryFilesAux
    cases (engine i).1 <;> rfl
  | succ r =>
    unfold retryFilesAux
    cases (engine i).1 with
    | ok v => rfl
    | error e =>
      by_cases ht : e.isTransient
      · simp only [ht, if_true]
        rfl
      · simp only [ht, if_false]
        rfl

/-- **C6 (counterexample)** — The claim says partial files from a failed
attempt are cleaned up before the next retry attempt begins.  They are
not: with an engine whose first invocation fails transiently after
writing `clip.mp4.part`, the second attempt starts with
`clip.mp4.part` still present in the job directory. -/
theorem c6_counterexample :
    ((downloadWithRetryFiles
        (fun i => if i = 0 then (.error (.downloadError "timed out"), ["clip.mp4.part"])
          else (.ok (), ["clip.mp4"]))
        RETRY_ATTEMPTS).2.2).tail.head? = some (1, ["clip.mp4.part"]) ∧
    (["clip.mp4.part"] ≠ ([] : List String)) := by
  refine ⟨by decide, by decide⟩

/-- **C6 (amended)** — If acquisition fails after validation, no job is
registered in `_active_downloads` (registration happens only after a
successful download produced a manifest-shaped result); partial files
produced by a failed attempt are *not* cleaned up between attempts —
the next retry attempt starts with everything the failed attempt wrote
still present in the job directory (deletion happens only through the
post-response cleanup task). -/
theorem c6_failed_download_not_registered_and_partials_persist :
    (∀ (active : List (String × PathC)) (downloadId : String) (downloadDir : PathC)
       (e : EngineError),
      unidlUpdateActive active downloadId downloadDir (.error e) = active) ∧
    (∀ (engine : Nat → EngineResult Unit × List String) (i r : Nat)
       (files : List String) (msg : String),
      (engine i).1 = .error (.downloadError msg) →
      ((retryFilesAux engine i (r + 1) files).2.2).tail.head? =
        some (i + 1, files ++ (engine i).2)) := by
  constructor
  · intro active downloadId downloadDir e
    rfl
  · intro engine i r files msg h
    unfold retryFilesAux
    rw [h]
    simp only [EngineError.isTransient, if_true, List.tail_cons]
    exact retryFilesAux_trace_head engine (i + 1) r (files ++ (engine i).2)

/-- Witness for the amended C6 at a concrete table and engine. -/
theorem c6_failed_download_not_registered_witness :
    unidlUpdateActive [("old", ["w", "d"])] "j9" ["w", "cache", "yt_dlp", "j9"]
      (.error (.downloadError "network")) = [("old", ["w", "d"])] ∧
    ((retryFilesAux
        (fun _ => (.error (.downloadError "network"), ["a.part"])) 0 2 []).2.2).tail.head? =
      some (1, ["a.part"]) :=
  ⟨c6_failed_download_not_registered_and_partials_persist.1 _ "j9" _ _,
   by
    have h := c6_failed_download_not_registered_and_partials_persist.2
      (fun _ => (.error (.downloadError "network"), ["a.part"])) 0 1 [] "network" rfl
    simpa using h⟩

/-! ## URL validation: `utils.py`, `validate_download_url` (lines 35–47)

`urlparse` is modelled for URLs of the shape `scheme://netloc/…`:
the scheme is the (lower-cased) text before `"://"`, the netloc the
text after it up to the first `/`, `?` or `#`; a string without
`"://"` parses to an empty scheme and netloc, as `urlparse` gives for
scheme-less text.  The pydantic `HttpUrl` field type enforces the same
http/https + non-empty host conditions at request construction, before
the endpoint body, `build_ydl_opts` or any engine call runs. -/

def splitSchemeAux : List Char → List Char → Option (List Char × List Char)
  | ':' :: '/' :: '/' :: rest, acc => some (acc.reverse, rest)
  | c :: rest, acc => splitSchemeAux rest (c :: acc)
  | [], _ => none

/-- `(parsed.scheme, parsed.netloc)` of `urllib.parse.urlparse`. -/
def urlSplit (s : String) : String × String :=
  match splitSchemeAux s.data [] with
  | some (scheme, rest) =>
    (String.mk (scheme.map asciiLower),
     String.mk (rest.takeWhile (fun c => c != '/' && c != '?' && c != '#')))
  | none => ("", "")

/-- `validate_download_url` (utils.py lines 35–47): http/https scheme
and a non-empty netloc containing a dot. -/
def validateDownloadUrl (url : String) : Bool :=
  ((urlSplit url).1 = "http" ∨ (urlSplit url).1 = "https") ∧
  (urlSplit url).2 ≠ "" ∧ (urlSplit url).2.data.contains '.'

inductive RequestOutcome where
  | invalidRequest
  | engineRan (res : EngineResult Unit)

/-- Observable effects of handling one download request: the outcome,
whether `build_ydl_opts` ran, and how many engine invocations
happened. -/
structure PipelineTrace where
  outcome : RequestOutcome
  optsBuilt : Bool
  engineInvocations : Nat

/-- The request pipeline: URL validation happens at request
construction (models.py lines 90–96 / pydantic `HttpUrl`), before
`build_ydl_opts` (downloader.py line 77) and before any engine
invocation; an invalid URL short-circuits with a validation failure
and no side effects. -/
def handleRequest (url : String) (engine : Nat → EngineResult Unit × List String)
    (maxAttempts : Nat) : PipelineTrace :=
  if validateDownloadUrl url then
    { outcome := .engineRan (downloadWithRetryFiles engine maxAttempts).1,
      optsBuilt := true,
      engineInvocations := (downloadWithRetryFiles engine maxAttempts).2.1 }
  else
    { outcome := .invalidRequest, optsBuilt := false, engineInvocations := 0 }

/-- **C9** — A request whose URL is malformed (scheme not http/https,
or empty host) is rejected as a validation failure before any engine
option is built and before any engine invocation, with no side
effects: the trace records no option building and zero engine
invocations. -/
theorem c9_malformed_url_rejected_before_engine :
    (∀ (url : String) (engine : Nat → EngineResult Unit × List String) (m : Nat),
      validateDownloadUrl url = false →
      handleRequest url engine m =
        { outcome := .invalidRequest, optsBuilt := false, engineInvocations := 0 }) ∧
    (∀ url : String, (urlSplit url).1 ≠ "http" → (urlSplit url).1 ≠ "https" →
      validateDownloadUrl url = false) ∧
    (∀ url : String, (urlSplit url).2 = "" → validateDownloadUrl url = false) := by
  refine ⟨?_, ?_, ?_⟩
  · intro url engine m h
    unfold handleRequest
    rw [h]
    rfl
  · intro url h1 h2
    unfold validateDownloadUrl
    apply decide_eq_false
    rintro ⟨hsch, -⟩
    rcases hsch with h | h
    · exact h1 h
    · exact h2 h
  · intro url h
    unfold validateDownloadUrl
    apply decide_eq_false
    rintro ⟨-, hne, -⟩
    exact hne h

/-- Witness for C9 at `ftp://example.com`: rejected with zero engine
invocations and no option building. -/
theorem c9_malformed_url_rejected_witness :
    handleRequest "ftp://example.com" (fun _ => (.ok (), [])) 3 =
      { outcome := .invalidRequest, optsBuilt := false, engineInvocations := 0 } :=
  c9_malformed_url_rejected_before_engine.1 "ftp://example.com" _ 3 (by decide)

end UnifiedAPI
